import Mathlib

/-!
Verification model of the obsidian-mcp note engine.

Strings of the TypeScript source are modelled as `List Char` (`JSStr`);
JavaScript string operations (`split`, `trim`, `substring`, `includes`,
`toLowerCase`, ...) are translated into explicit list functions below.
Regular-expression evaluation is modelled by an abstract compiler oracle
`compile : JSStr → Option (JSStr → Bool)` (`none` = pattern failed to
compile, mirroring the `try { new RegExp(...) } catch` in the source).
-/

namespace ObsidianMCP

/-- JavaScript strings, modelled as lists of characters. -/
abbrev JSStr := List Char

/-- Model of the JavaScript `\s` / `trim` whitespace class (ASCII subset). -/
def jsWS (c : Char) : Bool :=
  c == ' ' || c == '\t' || c == '\n' || c == '\r' || c == '\x0b' || c == '\x0c'

/-- Right trim: remove trailing whitespace (part of JS `String.trim`). -/
def trimRight (s : JSStr) : JSStr :=
  (s.reverse.dropWhile jsWS).reverse

/-- Model of JS `String.prototype.trim`. -/
def trimChars (s : JSStr) : JSStr :=
  trimRight (s.dropWhile jsWS)

/-- Splitter used to model JS `String.prototype.split` on a one-character
separator; `acc` holds the current field reversed. -/
def splitChAux (sep : Char) : List Char → List Char → List JSStr
  | [], acc => [acc.reverse]
  | c :: cs, acc =>
    if c = sep then acc.reverse :: splitChAux sep cs []
    else splitChAux sep cs (c :: acc)

/-- Model of JS `s.split(sep)` for a one-character separator. -/
def splitCh (sep : Char) (s : JSStr) : List JSStr :=
  splitChAux sep s []

/-- Model of `content.split('\n')`. -/
def splitLines (s : JSStr) : List JSStr :=
  splitCh '\n' s

/-- Model of JS `a.startsWith(b)` (here: does `p` start the string `s`). -/
def isPre : JSStr → JSStr → Bool
  | [], _ => true
  | _, [] => false
  | a :: as_, b :: bs => a == b && isPre as_ bs

/-- Model of JS `hay.includes(needle)` (substring containment). -/
def jsIncludes (hay needle : JSStr) : Bool :=
  match hay with
  | [] => needle.isEmpty
  | _ :: rest => isPre needle hay || jsIncludes rest needle

/-- Model of JS `String.prototype.toLowerCase` (ASCII letters). -/
def lowerStr (s : JSStr) : JSStr :=
  s.map Char.toLower

/-- Model of `s.replace(/['"]/g, '')`. -/
def stripQuotes (s : JSStr) : JSStr :=
  s.filter (fun c => !(c == '\'' || c == '"'))

/-- Model of JS `String.prototype.indexOf(':')`: index of the first colon. -/
def idxOfColon : JSStr → Option Nat
  | [] => none
  | c :: rest => if c = ':' then some 0 else (idxOfColon rest).map (· + 1)

/-- `formatter.ts extractTitleFromContent`, loop over the lines: the first
line whose trimmed form starts with `"# "` yields the rest (trimmed). -/
def findTitle : List JSStr → JSStr
  | [] => "Untitled".data
  | line :: rest =>
    let t := trimChars line
    if isPre "# ".data t then trimChars (t.drop 2) else findTitle rest

/-- `formatter.ts extractTitleFromContent`. -/
def extractTitleFromContent (content : JSStr) : JSStr :=
  findTitle (splitLines content)

/-- JS word character (`\w` = ASCII letter, digit or underscore). -/
def isWordChar (c : Char) : Bool :=
  c.isAlphanum || c == '_'

/-- Scanner state for the global regex `/#\w+/g`: outside any match, just
after a `#`, or inside the word body (reversed accumulator). -/
inductive HTMode where
  | out
  | hash
  | word (acc : List Char)

/-- Left-to-right scan implementing `/#\w+/g` matching. -/
def scanHTAux : List Char → HTMode → List JSStr
  | [], HTMode.word acc => [acc.reverse]
  | [], _ => []
  | c :: rest, HTMode.out =>
    if c = '#' then scanHTAux rest HTMode.hash else scanHTAux rest HTMode.out
  | c :: rest, HTMode.hash =>
    if isWordChar c then scanHTAux rest (HTMode.word [c])
    else if c = '#' then scanHTAux rest HTMode.hash
    else scanHTAux rest HTMode.out
  | c :: rest, HTMode.word acc =>
    if isWordChar c then scanHTAux rest (HTMode.word (c :: acc))
    else if c = '#' then acc.reverse :: scanHTAux rest HTMode.hash
    else acc.reverse :: scanHTAux rest HTMode.out

/-- Model of `trimmed.match(/#\w+/g)`: every maximal `#`+word-chars run,
with the leading `#` stripped. -/
def scanHashtags (s : JSStr) : List JSStr :=
  scanHTAux s HTMode.out

/-- Characters of the bracket content captured by the lazy group in
`/tags:\s*\[(.*?)\]/`: everything before the first `]`, or `none` if no
closing bracket exists. -/
def beforeRBracket : JSStr → Option JSStr
  | [] => none
  | c :: rest => if c = ']' then some [] else (beforeRBracket rest).map (c :: ·)

/-- Attempt to match `/tags:\s*\[(.*?)\]/` at the start of `s`. -/
def matchTagsAt (s : JSStr) : Option JSStr :=
  if isPre "tags:".data s then
    match (s.drop 5).dropWhile jsWS with
    | '[' :: rest => beforeRBracket rest
    | _ => none
  else none

/-- Model of the regex search `trimmed.match(/tags:\s*\[(.*?)\]/)`:
try a match at every position, left to right. -/
def searchTags : JSStr → Option JSStr
  | [] => none
  | c :: rest =>
    match matchTagsAt (c :: rest) with
    | some x => some x
    | none => searchTags rest

/-- One front-matter tag token: `tag.replace(/['"]/g, '').trim()`. -/
def cleanTagToken (s : JSStr) : JSStr :=
  trimChars (stripQuotes s)

/-- Tag list from the bracket contents of a front-matter `tags:` line
(`formatter.ts extractTagsFromContent`). -/
def parseTagList (inner : JSStr) : List JSStr :=
  ((splitCh ',' inner).map cleanTagToken).filter (fun t => !t.isEmpty)

/-- Deduplication keeping first occurrences, tracking the set of elements
already emitted: model of `[...new Set(tags)]`. -/
def firstDedupAux : List JSStr → List JSStr → List JSStr
  | [], _ => []
  | x :: xs, seen =>
    if seen.contains x then firstDedupAux xs seen
    else x :: firstDedupAux xs (x :: seen)

/-- Model of `[...new Set(tags)]`. -/
def firstDedup (l : List JSStr) : List JSStr :=
  firstDedupAux l []

/-- Line loop of `formatter.ts extractTagsFromContent`, carrying the
`inFrontMatter` flag. -/
def tagsLoop : List JSStr → Bool → List JSStr
  | [], _ => []
  | line :: rest, inFM =>
    let t := trimChars line
    if t = "---".data then tagsLoop rest (!inFM)
    else
      let fmTags :=
        if inFM && isPre "tags:".data t then
          match searchTags t with
          | some inner => parseTagList inner
          | none => []
        else []
      let inline :=
        if !inFM && t.contains '#' then scanHashtags t else []
      fmTags ++ inline ++ tagsLoop rest inFM

/-- `formatter.ts extractTagsFromContent`. -/
def extractTagsFromContent (content : JSStr) : List JSStr :=
  firstDedup (tagsLoop (splitLines content) false)

/-- A front-matter value: plain string or bracketed array
(`note.ts extractFrontMatter`). -/
inductive FMValue where
  | str (s : JSStr)
  | arr (xs : List JSStr)
deriving DecidableEq, Repr

/-- One array token of a front-matter value:
`item.trim().replace(/['"]/g, '')`. -/
def cleanFMToken (s : JSStr) : JSStr :=
  stripQuotes (trimChars s)

/-- Parse the value part of a `key: value` front-matter line
(`note.ts extractFrontMatter`). -/
def parseFMValue (v : JSStr) : FMValue :=
  if v.head? = some '"' ∧ v.getLast? = some '"' then
    FMValue.str (v.drop 1).dropLast
  else if v.head? = some '[' ∧ v.getLast? = some ']' then
    FMValue.arr ((((splitCh ',' (v.drop 1).dropLast).map cleanFMToken).filter
      (fun t => !t.isEmpty)))
  else FMValue.str v

/-- Parse one front-matter line into a key/value pair; `none` when the line
has no colon after position 0 (silently skipped in the source). -/
def parseFMLine (line : JSStr) : Option (JSStr × FMValue) :=
  match idxOfColon line with
  | none => none
  | some i =>
    if i > 0 then
      some (trimChars (line.take i), parseFMValue (trimChars (line.drop (i + 1))))
    else none

/-- JS object assignment `obj[key] = value`: update in place if the key
exists, else append. -/
def recordSet (r : List (JSStr × FMValue)) (k : JSStr) (v : FMValue) :
    List (JSStr × FMValue) :=
  if r.any (fun p => p.1 = k) then
    r.map (fun p => if p.1 = k then (k, v) else p)
  else r ++ [(k, v)]

/-- Fold the front-matter lines into the record (`note.ts extractFrontMatter`). -/
def parseFMLines (lines : List JSStr) : List (JSStr × FMValue) :=
  lines.foldl
    (fun r l =>
      match parseFMLine l with
      | some (k, v) => recordSet r k v
      | none => r)
    []

/-- `note.ts extractFrontMatter`: requires line 0, trimmed, to be `---`;
then the region up to the first later `---` line is parsed. -/
def extractFrontMatter (content : JSStr) : Option (List (JSStr × FMValue)) :=
  match splitLines content with
  | [] => none
  | l0 :: rest =>
    if trimChars l0 ≠ "---".data then none
    else
      match rest.findIdx? (fun l => trimChars l = "---".data) with
      | none => none
      | some j => some (parseFMLines (rest.take j))

example :
    extractTitleFromContent
      "---\ncreated: \"2024-01-01\"\ntags: [\"a\", \"b\"]\n---\n# Hi\nbody #c".data
      = "Hi".data := by decide

example :
    extractTagsFromContent
      "---\ncreated: \"2024-01-01\"\ntags: [\"a\", \"b\"]\n---\n# Hi\nbody #c".data
      = ["a".data, "b".data, "c".data] := by decide

example :
    extractFrontMatter
      "---\ncreated: \"2024-01-01\"\ntags: [\"a\", \"b\"]\n---\n# Hi\nbody #c".data
      = some [("created".data, FMValue.str "2024-01-01".data),
              ("tags".data, FMValue.arr ["a".data, "b".data])] := by decide

example : extractFrontMatter "\n---\na: b\n---\nx".data = none := by decide

/-! ### Search / list engine (`note.ts`) -/

/-- `types/index.ts TagOperator`. -/
inductive TagOperator where
  | AND
  | OR
deriving DecidableEq, Repr

/-- `types/index.ts SearchInField`. -/
inductive SearchInField where
  | filename
  | title
  | content
  | all
deriving DecidableEq, Repr

/-- `types/index.ts SortBy`. -/
inductive SortBy where
  | name
  | date
  | size
deriving DecidableEq, Repr

/-- `types/index.ts SortOrder`. -/
inductive SortOrder where
  | asc
  | desc
deriving DecidableEq, Repr

/-- A matched-field tag (`'filename' | 'title' | 'content' | 'tags'`). -/
inductive MField where
  | filename
  | title
  | content
  | tags
deriving DecidableEq, Repr

/-- `types/index.ts AdvancedSearchNotesParams` (the folder scope is applied
by the file listing, so the file list is passed separately). Absent optional
strings are `none`; absent `tags` is the empty list. -/
structure SearchParams where
  query : Option JSStr
  tags : List JSStr
  tagOperator : Option TagOperator
  searchIn : Option SearchInField
  regex : Option JSStr
  includeContent : Bool
  limit : Option Nat
  offset : Option Nat
deriving Repr

/-- A vault file as the engine sees it: relative path, text content and
modification time (`fs.stat(...).mtime`, as an integer timestamp). -/
structure VFile where
  path : JSStr
  content : JSStr
  mtime : Int
deriving DecidableEq, Repr

/-- `types/index.ts EnrichedSearchResult`. -/
structure EnrichedResult where
  path : JSStr
  filename : JSStr
  title : JSStr
  excerpt : JSStr
  tags : List JSStr
  lastModified : Int
  content : Option JSStr
  matchedFields : List MField
deriving DecidableEq, Repr

/-- Model of Node `path.basename`: the part after the last `/`. -/
def baseName (p : JSStr) : JSStr :=
  (p.reverse.takeWhile (fun c => c ≠ '/')).reverse

/-- JS truthiness of an optional string: `undefined` and `""` are falsy. -/
def optActive (o : Option JSStr) : Option JSStr :=
  match o with
  | none => none
  | some s => if s.isEmpty then none else some s

/-- JS `x || d` for an optional number: `undefined` and `0` give `d`. -/
def jsOrNat (o : Option Nat) (d : Nat) : Nat :=
  match o with
  | none => d
  | some n => if n = 0 then d else n

/-- `matchedFields.includes(f) || matchedFields.push(f)` pattern from the
regex branch of `processSingleFile`. -/
def pushUnique (mf : List MField) (f : MField) : List MField :=
  if mf.contains f then mf else mf ++ [f]

/-- Query step of `note.ts processSingleFile` (lines 213-237): test the
scoped fields for case-insensitive substring containment; the pair is
(matchedFields, matches). -/
def queryStep (params : SearchParams) (filename title content : JSStr) :
    List MField × Bool :=
  match optActive params.query with
  | none => ([], true)
  | some q =>
    let ql := lowerStr q
    let searchIn := params.searchIn.getD SearchInField.content
    let mf :=
      (if (searchIn = SearchInField.filename ∨ searchIn = SearchInField.all)
          ∧ jsIncludes (lowerStr filename) ql then [MField.filename] else [])
      ++ (if (searchIn = SearchInField.title ∨ searchIn = SearchInField.all)
          ∧ jsIncludes (lowerStr title) ql then [MField.title] else [])
      ++ (if (searchIn = SearchInField.content ∨ searchIn = SearchInField.all)
          ∧ jsIncludes (lowerStr content) ql then [MField.content] else [])
    (mf, !mf.isEmpty)

/-- Regex step of `note.ts processSingleFile` (lines 239-258). The oracle
`compile` stands for `new RegExp(pattern, 'i')`: `none` means the
constructor threw, in which case the catch block leaves the state alone. -/
def regexStep (compile : JSStr → Option (JSStr → Bool)) (params : SearchParams)
    (filename content : JSStr) (st : List MField × Bool) : List MField × Bool :=
  match optActive params.regex with
  | none => st
  | some pat =>
    match compile pat with
    | none => st
    | some test =>
      if test content then (pushUnique st.1 MField.content, true)
      else if test filename then (pushUnique st.1 MField.filename, true)
      else if (optActive params.query).isNone then (st.1, false)
      else st

/-- The tag condition of `note.ts processSingleFile` (lines 261-264). -/
def tagCondition (params : SearchParams) (noteTags : List JSStr) : Bool :=
  match params.tagOperator.getD TagOperator.AND with
  | TagOperator.AND => params.tags.all (fun t => noteTags.contains t)
  | TagOperator.OR => params.tags.any (fun t => noteTags.contains t)

/-- Tag step of `note.ts processSingleFile` (lines 260-271). -/
def tagStep (params : SearchParams) (noteTags : List JSStr)
    (st : List MField × Bool) : List MField × Bool :=
  if !params.tags.isEmpty then
    if tagCondition params noteTags then (st.1 ++ [MField.tags], st.2)
    else (st.1, false)
  else st

/-- `note.ts processSingleFile`. -/
def processSingleFile (compile : JSStr → Option (JSStr → Bool)) (file : VFile)
    (params : SearchParams) : Option EnrichedResult :=
  let content := file.content
  let title := extractTitleFromContent content
  let tags := extractTagsFromContent content
  let filename := baseName file.path
  let st := tagStep params tags
    (regexStep compile params filename content
      (queryStep params filename title content))
  if st.2 then
    some { path := file.path
           filename := filename
           title := title
           excerpt := content.take 200
           tags := tags
           lastModified := file.mtime
           content := if params.includeContent then some content else none
           matchedFields := st.1 }
  else none

/-- The batch loop shared by `searchNotes` and `listNotes` (BATCH_SIZE = 50):
process 50 files at a time, drop the `null` outcomes, concatenate in
listing order. -/
def batchedFilterMap (g : VFile → Option EnrichedResult) (files : List VFile) :
    List EnrichedResult :=
  if files.isEmpty then []
  else ((files.take 50).filterMap g) ++ batchedFilterMap g (files.drop 50)
termination_by files.length
decreasing_by
  have h : files.length ≠ 0 := by
    cases files with
    | nil => simp_all
    | cons x xs => simp
  simp only [List.length_drop]
  omega

/-- `note.ts searchNotes`: filter every listed file, then slice
`[offset, offset+limit)` with defaults `limit=10`, `offset=0`. -/
def searchNotes (compile : JSStr → Option (JSStr → Bool)) (files : List VFile)
    (params : SearchParams) : List EnrichedResult :=
  let limit := jsOrNat params.limit 10
  let offset := jsOrNat params.offset 0
  let results := batchedFilterMap (fun f => processSingleFile compile f params) files
  (results.drop offset).take limit

/-- Batched processing concatenated in listing order is plain `filterMap`. -/
theorem batchedFilterMap_eq (g : VFile → Option EnrichedResult) :
    ∀ files : List VFile, batchedFilterMap g files = files.filterMap g := by
  have key : ∀ n (files : List VFile), files.length ≤ n →
      batchedFilterMap g files = files.filterMap g := by
    intro n
    induction n with
    | zero =>
      intro files h
      have : files = [] := List.eq_nil_of_length_eq_zero (Nat.le_zero.mp h)
      subst this
      rw [batchedFilterMap]
      simp
    | succ n ih =>
      intro files h
      rw [batchedFilterMap]
      by_cases hf : files.isEmpty
      · have : files = [] := List.isEmpty_iff.mp hf
        subst this
        simp
      · rw [if_neg hf]
        have hlen : (files.drop 50).length ≤ n := by
          have hne : files.length ≠ 0 := by
            intro h0
            exact hf (List.isEmpty_iff.mpr (List.eq_nil_of_length_eq_zero h0))
          simp only [List.length_drop]
          omega
        rw [ih (files.drop 50) hlen, ← List.filterMap_append,
          List.take_append_drop]
  intro files
  exact key files.length files le_rfl

/-- `types/index.ts ListNotesParams` (minus the folder scope, which is
applied by the file listing). -/
structure ListParams where
  limit : Option Nat
  offset : Option Nat
  sortBy : Option SortBy
  sortOrder : Option SortOrder
  includeContent : Bool
deriving Repr

/-- `types/index.ts ListNotesResult`. -/
structure ListNotesResult where
  notes : List EnrichedResult
  total : Nat
  hasMore : Bool
deriving DecidableEq, Repr

/-- Lexicographic character-code comparison, the locale-independent model
of `a.filename.localeCompare(b.filename)`. -/
def cmpChars : JSStr → JSStr → Int
  | [], [] => 0
  | [], _ :: _ => -1
  | _ :: _, [] => 1
  | a :: as_, b :: bs =>
    if a < b then -1 else if b < a then 1 else cmpChars as_ bs

/-- The comparator of `note.ts listNotes` (lines 164-180). -/
def listCompare (sortBy : SortBy) (sortOrder : SortOrder)
    (a b : EnrichedResult) : Int :=
  let comparison : Int :=
    match sortBy with
    | SortBy.name => cmpChars a.filename b.filename
    | SortBy.date => a.lastModified - b.lastModified
    | SortBy.size => (a.excerpt.length : Int) - (b.excerpt.length : Int)
  match sortOrder with
  | SortOrder.asc => comparison
  | SortOrder.desc => -comparison

/-- Stable insertion used to model `Array.prototype.sort` with a
three-way comparator: an element is inserted after everything that
compares `≤ 0` against it. -/
def insertSorted (le : EnrichedResult → EnrichedResult → Bool)
    (x : EnrichedResult) : List EnrichedResult → List EnrichedResult
  | [] => [x]
  | y :: ys => if le y x then y :: insertSorted le x ys else x :: y :: ys

/-- Stable sort modelling `Array.prototype.sort(comparator)`. -/
def sortWith (le : EnrichedResult → EnrichedResult → Bool) :
    List EnrichedResult → List EnrichedResult
  | [] => []
  | x :: xs => insertSorted le x (sortWith le xs)

/-- The note record built for each file by `note.ts listNotes`
(lines 136-154). -/
def mkListNote (includeContent : Bool) (f : VFile) : EnrichedResult :=
  { path := f.path
    filename := baseName f.path
    title := extractTitleFromContent f.content
    excerpt := f.content.take 200
    tags := extractTagsFromContent f.content
    lastModified := f.mtime
    content := if includeContent then some f.content else none
    matchedFields := [] }

/-- `note.ts listNotes`: enrich every file, sort, then slice
`[offset, offset+limit)` with defaults `limit=50`, `offset=0`,
`sortBy=name`, `sortOrder=asc`. -/
def listNotes (files : List VFile) (p : ListParams) : ListNotesResult :=
  let limit := jsOrNat p.limit 50
  let offset := jsOrNat p.offset 0
  let sortBy := p.sortBy.getD SortBy.name
  let sortOrder := p.sortOrder.getD SortOrder.asc
  let notes := batchedFilterMap (fun f => some (mkListNote p.includeContent f)) files
  let sorted := sortWith (fun a b => listCompare sortBy sortOrder a b ≤ 0) notes
  { notes := (sorted.drop offset).take limit
    total := sorted.length
    hasMore := offset + limit < sorted.length }

/-! ### Note assembly (`formatter.ts`) and creation (`note.ts`, `vault.ts`) -/

/-- `types/index.ts NoteStyle`. -/
inductive NoteStyle where
  | concise
  | detailed
  | eli5
deriving DecidableEq, Repr

/-- The literal string of a style value. -/
def styleStr : NoteStyle → JSStr
  | NoteStyle.concise => "concise".data
  | NoteStyle.detailed => "detailed".data
  | NoteStyle.eli5 => "eli5".data

/-- A calendar date, standing in for the `Date` fed to
`format(date, 'yyyy-MM-dd')`. -/
structure DateYMD where
  year : Nat
  month : Nat
  day : Nat
deriving DecidableEq, Repr

/-- Decimal digits of `n`, most significant first, with a fuel argument
bounding the recursion (any fuel `≥ n` is exact). -/
def natDigitsAux : Nat → Nat → List Char → List Char
  | 0, _, acc => acc
  | fuel + 1, n, acc =>
    if n = 0 then acc
    else natDigitsAux fuel (n / 10) (Nat.digitChar (n % 10) :: acc)

/-- Decimal representation of a natural number. -/
def natDigits (n : Nat) : JSStr :=
  if n = 0 then ['0'] else natDigitsAux n n []

/-- Left-pad a digit string with zeros to width `w`. -/
def padZeros (w : Nat) (s : JSStr) : JSStr :=
  List.replicate (w - s.length) '0' ++ s

/-- Model of date-fns `format(date, 'yyyy-MM-dd')`. -/
def formatYMD (d : DateYMD) : JSStr :=
  padZeros 4 (natDigits d.year) ++ "-".data ++ padZeros 2 (natDigits d.month)
    ++ "-".data ++ padZeros 2 (natDigits d.day)

/-- `Array.prototype.join(sep)`. -/
def joinStrs (sep : JSStr) : List JSStr → JSStr
  | [] => []
  | [x] => x
  | x :: y :: xs => x ++ sep ++ joinStrs sep (y :: xs)

/-- Wrap a value in double quotes (front-matter serialization). -/
def quoteStr (s : JSStr) : JSStr :=
  "\"".data ++ s ++ "\"".data

/-- `formatter.ts generateFrontMatter`: the `created` / `style` / `tags`
YAML block between `---` delimiters, with `'mcp'` appended to the tags. -/
def generateFrontMatter (tags : List JSStr) (style : NoteStyle) (date : DateYMD) :
    JSStr :=
  "---\n".data
    ++ "created: ".data ++ quoteStr (formatYMD date) ++ "\n".data
    ++ "style: ".data ++ quoteStr (styleStr style) ++ "\n".data
    ++ "tags: [".data ++ joinStrs ", ".data ((tags ++ ["mcp".data]).map quoteStr)
    ++ "]".data
    ++ "\n---".data

/-- `formatter.ts generateConciseContent`. -/
def generateConciseContent (topic : JSStr) (highlights : List JSStr) : JSStr :=
  "# ".data ++ topic ++ "\n\n".data
    ++ (highlights.map (fun p => "- ".data ++ p ++ "\n".data)).flatten

/-- `formatter.ts generateDetailedContent`. -/
def generateDetailedContent (topic : JSStr) (highlights : List JSStr) : JSStr :=
  "# ".data ++ topic ++ "\n\n".data
    ++ (highlights.map (fun p => p ++ "\n\n".data)).flatten

/-- `formatter.ts generateEli5Content`. -/
def generateEli5Content (topic : JSStr) (highlights : List JSStr) : JSStr :=
  "# ".data ++ topic ++ "\n\n".data ++ "> Simple explanation\n\n".data
    ++ (highlights.map (fun p => p ++ "\n\n".data)).flatten

/-- `formatter.ts generateMainContent`. -/
def generateMainContent (topic : JSStr) (highlights : List JSStr)
    (style : NoteStyle) : JSStr :=
  match style with
  | NoteStyle.concise => generateConciseContent topic highlights
  | NoteStyle.eli5 => generateEli5Content topic highlights
  | NoteStyle.detailed => generateDetailedContent topic highlights

/-- `types/index.ts ConversationNoteParams`. -/
structure ConversationNoteParams where
  topic : JSStr
  highlights : List JSStr
  tags : List JSStr
  folder : Option JSStr
  style : Option NoteStyle
deriving Repr

/-- `formatter.ts formatConversationNote` (tags default `[]` is the empty
list, style defaults to `'concise'`). -/
def formatConversationNote (params : ConversationNoteParams) (date : DateYMD) :
    JSStr :=
  let style := params.style.getD NoteStyle.concise
  generateFrontMatter params.tags style date ++ "\n\n".data
    ++ generateMainContent params.topic params.highlights style

/-- Whitespace-run collapsing, `s.replace(/\s+/g, ' ')`: `prevWS` records
whether the previous character was part of a whitespace run. -/
def collapseWSAux : List Char → Bool → List Char
  | [], _ => []
  | c :: rest, prevWS =>
    if jsWS c then
      if prevWS then collapseWSAux rest true
      else ' ' :: collapseWSAux rest true
    else c :: collapseWSAux rest false

/-- Model of `s.replace(/\s+/g, ' ')`. -/
def collapseWS (s : JSStr) : JSStr :=
  collapseWSAux s false

/-- The characters removed by `vault.ts sanitizeFileName`. -/
def forbiddenChar (c : Char) : Bool :=
  c == '<' || c == '>' || c == ':' || c == '"' || c == '/' || c == '\\'
    || c == '|' || c == '?' || c == '*'

/-- `vault.ts sanitizeFileName`: strip forbidden characters, collapse
whitespace runs, trim, truncate to 100 characters. -/
def sanitizeFileName (name : JSStr) : JSStr :=
  (trimChars (collapseWS (name.filter (fun c => !forbiddenChar c)))).take 100

/-- `vault.ts generateFileName` (the ISO date part is passed in for the
ambient `new Date()`). -/
def generateFileName (dateStr : JSStr) (topic : JSStr) : JSStr :=
  dateStr ++ " - ".data ++ sanitizeFileName topic ++ ".md".data

/-- Model of Node `path.join` for plain non-empty segments. -/
def joinPath (a b : JSStr) : JSStr :=
  a ++ "/".data ++ b

/-- `types/index.ts CreateNoteResult`. -/
structure CreateNoteResult where
  success : Bool
  path : Option JSStr
  error : Option JSStr
deriving DecidableEq, Repr

/-- The target folder: `params.folder || 'MCP Notes'`. -/
def resolvedFolder (params : ConversationNoteParams) : JSStr :=
  match optActive params.folder with
  | some f => f
  | none => "MCP Notes".data

/-- `note.ts createConversationNote`. Ambient effects are made explicit:
`vaultValid` is `vault.validateVaultPath()`, `existsF` is
`vault.fileExists`, `dateStr` is `new Date().toISOString().split('T')[0]`,
`ts` is `new Date().toISOString().replace(/[:.]/g, '-')`, and `fmDate`
is the date the formatter receives. The second component records the
(path, content) writes performed. -/
def createConversationNote (vaultValid : Bool) (existsF : JSStr → Bool)
    (vaultPath : JSStr) (dateStr ts : JSStr) (fmDate : DateYMD)
    (params : ConversationNoteParams) : CreateNoteResult × List (JSStr × JSStr) :=
  if !vaultValid then
    ({ success := false, path := none,
       error := some "Obsidian vault path not found or invalid".data }, [])
  else
    let folder := resolvedFolder params
    let fileName := generateFileName dateStr params.topic
    let filePath := joinPath vaultPath (joinPath folder fileName)
    let content := formatConversationNote params fmDate
    if existsF filePath then
      let newFileName :=
        generateFileName dateStr (params.topic ++ " - ".data ++ ts)
      let newFilePath := joinPath vaultPath (joinPath folder newFileName)
      ({ success := true, path := some newFilePath, error := none },
       [(newFilePath, content)])
    else
      ({ success := true, path := some filePath, error := none },
       [(filePath, content)])

/-! ### Helper lemmas -/

theorem splitChAux_no_sep (sep : Char) :
    ∀ (a : List Char) (s acc : List Char), sep ∉ a →
      splitChAux sep (a ++ s) acc = splitChAux sep s (a.reverse ++ acc) := by
  intro a
  induction a with
  | nil => intro s acc _; simp
  | cons x xs ih =>
    intro s acc hmem
    have hx : x ≠ sep := by
      intro h; exact hmem (h ▸ List.mem_cons_self x xs)
    have hxs : sep ∉ xs := fun h => hmem (List.mem_cons_of_mem x h)
    rw [List.cons_append, splitChAux.eq_def]
    simp only [if_neg hx]
    rw [ih s (x :: acc) hxs]
    simp [List.append_assoc]

/-- Splitting at an explicit separator: the part before (free of the
separator) becomes one field. -/
theorem splitLines_append_cons (a b : JSStr) (h : '\n' ∉ a) :
    splitLines (a ++ '\n' :: b) = a :: splitLines b := by
  unfold splitLines splitCh
  rw [splitChAux_no_sep '\n' a ('\n' :: b) [] h]
  rw [splitChAux.eq_def]
  simp

theorem dropWhile_eq_nil_of_all {p : Char → Bool} :
    ∀ {l : List Char}, (∀ a ∈ l, p a = true) → l.dropWhile p = [] := by
  intro l
  induction l with
  | nil => intro _; rfl
  | cons x xs ih =>
    intro h
    rw [List.dropWhile_cons]
    simp only [h x (List.mem_cons_self x xs), if_true]
    exact ih (fun a ha => h a (List.mem_cons_of_mem x ha))

theorem dropWhile_ne_nil_of_exists {p : Char → Bool} :
    ∀ {l : List Char}, (∃ a ∈ l, p a = false) → l.dropWhile p ≠ [] := by
  intro l
  induction l with
  | nil => rintro ⟨a, ha, _⟩; cases ha
  | cons x xs ih =>
    rintro ⟨a, ha, hpa⟩
    rw [List.dropWhile_cons]
    by_cases hx : p x = true
    · rcases List.mem_cons.mp ha with rfl | ha2
      · rw [hx] at hpa; cases hpa
      · simp only [hx, if_true]
        exact ih ⟨a, ha2, hpa⟩
    · simp only [hx, if_false]
      exact List.cons_ne_nil x _

theorem dropWhile_append_single (p : Char → Bool) (u : List Char) (c : Char)
    (t : List Char) (hc : p c = false) :
    (u ++ c :: t).dropWhile p = u.dropWhile p ++ c :: t := by
  rw [List.dropWhile_append]
  by_cases h : (u.dropWhile p).isEmpty
  · rw [if_pos h, List.dropWhile_cons, hc]
    simp only [List.isEmpty_iff] at h
    rw [h]
    simp
  · rw [if_neg h]

theorem trimRight_cons_not_ws {c : Char} (t : JSStr) (hc : jsWS c = false) :
    trimRight (c :: t) = c :: trimRight t := by
  unfold trimRight
  rw [List.reverse_cons, dropWhile_append_single jsWS t.reverse c [] hc]
  simp

theorem trimRight_cons_keep (x : Char) {t : JSStr}
    (h : ∃ c ∈ t, jsWS c = false) : trimRight (x :: t) = x :: trimRight t := by
  unfold trimRight
  rw [List.reverse_cons, List.dropWhile_append]
  have hne : (t.reverse.dropWhile jsWS).isEmpty = false := by
    rcases h with ⟨c, hc, hcf⟩
    have : t.reverse.dropWhile jsWS ≠ [] :=
      dropWhile_ne_nil_of_exists ⟨c, List.mem_reverse.mpr hc, hcf⟩
    simpa [List.isEmpty_iff] using this
  rw [hne]
  simp

theorem trimRight_eq_nil_of_all {t : JSStr} (h : ∀ c ∈ t, jsWS c = true) :
    trimRight t = [] := by
  unfold trimRight
  rw [dropWhile_eq_nil_of_all (fun a ha => h a (List.mem_reverse.mp ha))]
  rfl

theorem dropWhile_idem (p : Char → Bool) :
    ∀ l : List Char, (l.dropWhile p).dropWhile p = l.dropWhile p := by
  intro l
  induction l with
  | nil => rfl
  | cons x xs ih =>
    rw [List.dropWhile_cons]
    by_cases hx : p x = true
    · rw [if_pos hx]; exact ih
    · rw [if_neg hx, List.dropWhile_cons, if_neg hx]

theorem trimRight_idem (s : JSStr) : trimRight (trimRight s) = trimRight s := by
  unfold trimRight
  rw [List.reverse_reverse, dropWhile_idem]

theorem dropWhile_trimRight_comm (s : JSStr) :
    (trimRight s).dropWhile jsWS = trimRight (s.dropWhile jsWS) := by
  induction s with
  | nil => rfl
  | cons c t ih =>
    by_cases hws : jsWS c = true
    · by_cases hall : ∀ x ∈ t, jsWS x = true
      · have h1 : trimRight (c :: t) = [] :=
          trimRight_eq_nil_of_all (by
            intro x hx
            rcases List.mem_cons.mp hx with rfl | hx2
            · exact hws
            · exact hall x hx2)
        rw [h1, List.dropWhile_cons, hws]
        simp only [if_true]
        rw [dropWhile_eq_nil_of_all hall]
        rfl
      · have hex : ∃ x ∈ t, jsWS x = false := by
          push_neg at hall
          rcases hall with ⟨x, hx, hxf⟩
          exact ⟨x, hx, by simpa using hxf⟩
        rw [trimRight_cons_keep c hex, List.dropWhile_cons, hws,
          List.dropWhile_cons, hws]
        simp only [if_true]
        exact ih
    · have hcf : jsWS c = false := by simpa using hws
      rw [trimRight_cons_not_ws t hcf, List.dropWhile_cons, hcf,
        List.dropWhile_cons, hcf]
      simp only [Bool.false_eq_true, if_false]
      rw [trimRight_cons_not_ws t hcf]

theorem trimChars_trimRight (s : JSStr) : trimChars (trimRight s) = trimChars s := by
  unfold trimChars
  rw [dropWhile_trimRight_comm, trimRight_idem]

theorem trimChars_cons_not_ws {c : Char} (t : JSStr) (hc : jsWS c = false) :
    trimChars (c :: t) = c :: trimRight t := by
  unfold trimChars
  rw [List.dropWhile_cons, hc]
  simp only [Bool.false_eq_true, if_false]
  exact trimRight_cons_not_ws t hc

theorem findTitle_skip_head {c : Char} (t : JSStr) (hc : jsWS c = false)
    (hne : c ≠ '#') : isPre "# ".data (trimChars (c :: t)) = false := by
  rw [trimChars_cons_not_ws t hc]
  show isPre ('#' :: ' ' :: []) (c :: trimRight t) = false
  unfold isPre
  simp only [Bool.and_eq_false_iff]
  left
  exact beq_eq_false_iff_ne.mpr (fun h => hne h.symm)

theorem exists_not_ws_of_trim_ne {t : JSStr} (h : trimChars t ≠ []) :
    ∃ c ∈ t, jsWS c = false := by
  by_contra hall
  push_neg at hall
  apply h
  unfold trimChars
  rw [dropWhile_eq_nil_of_all (fun a ha => by simpa using hall a ha)]
  rfl

theorem findIdx?_append_first {p : JSStr → Bool} :
    ∀ (pre : List JSStr) (d : JSStr) (tail : List JSStr),
      (∀ l ∈ pre, p l = false) → p d = true →
      (pre ++ d :: tail).findIdx? p = some pre.length := by
  intro pre
  induction pre with
  | nil =>
    intro d tail _ hd
    simp [List.findIdx?_cons, hd]
  | cons x xs ih =>
    intro d tail hpre hd
    have hx : p x = false := hpre x (List.mem_cons_self x xs)
    rw [List.cons_append, List.findIdx?_cons, hx]
    simp only [Bool.false_eq_true, if_false]
    rw [List.findIdx?_succ,
      ih d tail (fun l hl => hpre l (List.mem_cons_of_mem x hl)) hd]
    rfl

/-! ### Claims -/

/-- C2: parsing the scenario content yields title `"Hi"`, front matter
`{created: "2024-01-01", tags: ["a","b"]}` and the tag list `[a, b, c]`. -/
theorem C2_parse_scenario :
    extractTitleFromContent
        "---\ncreated: \"2024-01-01\"\ntags: [\"a\", \"b\"]\n---\n# Hi\nbody #c".data
      = "Hi".data
    ∧ extractFrontMatter
        "---\ncreated: \"2024-01-01\"\ntags: [\"a\", \"b\"]\n---\n# Hi\nbody #c".data
      = some [("created".data, FMValue.str "2024-01-01".data),
              ("tags".data, FMValue.arr ["a".data, "b".data])]
    ∧ extractTagsFromContent
        "---\ncreated: \"2024-01-01\"\ntags: [\"a\", \"b\"]\n---\n# Hi\nbody #c".data
      = ["a".data, "b".data, "c".data] := by
  refine ⟨by decide, by decide, by decide⟩

/-- C3 counterexample: a single blank line before the opening `---` defeats
front-matter recognition, although the first non-empty line (trimmed) is
`---` and a later `---` line exists; the extractor returns `none` instead of
the mapping the claim demands. -/
theorem C3_counterexample :
    (splitLines "\n---\na: b\n---\nx".data).find? (fun l => !l.isEmpty)
      = some "---".data
    ∧ ((splitLines "\n---\na: b\n---\nx".data).drop 2).any
        (fun l => trimChars l = "---".data) = true
    ∧ extractFrontMatter "\n---\na: b\n---\nx".data = none := by
  refine ⟨by decide, by decide, by decide⟩

/-- C3 (amended): recognition is keyed to line 0, not to the first
non-empty line: whenever line 0 of the content, trimmed, is exactly `---`
and a later line trims to `---`, the extractor returns the mapping parsed
from the lines strictly between line 0 and the first such later delimiter.
Blank lines before the opening `---` defeat recognition (see the
counterexample). -/
theorem C3_frontmatter_region (content : JSStr) (l0 d : JSStr)
    (pre tail : List JSStr)
    (hs : splitLines content = l0 :: (pre ++ d :: tail))
    (h0 : trimChars l0 = "---".data)
    (hd : trimChars d = "---".data)
    (hpre : ∀ l ∈ pre, trimChars l ≠ "---".data) :
    extractFrontMatter content = some (parseFMLines pre) := by
  unfold extractFrontMatter
  rw [hs]
  simp only [h0]
  rw [findIdx?_append_first pre d tail
    (fun l hl => by simp [hpre l hl]) (by simp [hd])]
  simp only [ne_eq, not_true_eq_false, if_false]
  rw [List.take_left']
  rfl

/-- C3 witness: the amended theorem applied to a concrete note. -/
theorem C3_frontmatter_region_witness :
    extractFrontMatter "---\na: b\n---\nx".data
      = some (parseFMLines ["a: b".data]) :=
  C3_frontmatter_region "---\na: b\n---\nx".data "---".data "---".data
    ["a: b".data] ["x".data] (by decide) (by decide) (by decide) (by decide)

theorem processSingleFile_eq_none_iff (compile : JSStr → Option (JSStr → Bool))
    (f : VFile) (p : SearchParams) :
    processSingleFile compile f p = none ↔
      (tagStep p (extractTagsFromContent f.content)
        (regexStep compile p (baseName f.path) f.content
          (queryStep p (baseName f.path) (extractTitleFromContent f.content)
            f.content))).2 = false := by
  unfold processSingleFile
  by_cases h : (tagStep p (extractTagsFromContent f.content)
      (regexStep compile p (baseName f.path) f.content
        (queryStep p (baseName f.path) (extractTitleFromContent f.content)
          f.content))).2 = true
  · simp [h]
  · simp only [Bool.not_eq_true] at h
    simp [h]

theorem processSingleFile_matchedFields (compile : JSStr → Option (JSStr → Bool))
    (f : VFile) (p : SearchParams) (r : EnrichedResult)
    (h : processSingleFile compile f p = some r) :
    r.matchedFields =
      (tagStep p (extractTagsFromContent f.content)
        (regexStep compile p (baseName f.path) f.content
          (queryStep p (baseName f.path) (extractTitleFromContent f.content)
            f.content))).1 := by
  unfold processSingleFile at h
  by_cases hb : (tagStep p (extractTagsFromContent f.content)
      (regexStep compile p (baseName f.path) f.content
        (queryStep p (baseName f.path) (extractTitleFromContent f.content)
          f.content))).2 = true
  · rw [if_pos hb] at h
    cases h
    rfl
  · rw [if_neg hb] at h
    cases h

/-- C1: with an active query and a syntactically valid regex (and no tag
criterion, so text matching alone decides), a note is excluded exactly when
the query matched none of the scoped fields and the regex matched neither
the content nor the filename. -/
theorem C1_query_regex_exclusion
    (compile : JSStr → Option (JSStr → Bool)) (f : VFile) (p : SearchParams)
    (q pat : JSStr) (test : JSStr → Bool)
    (hq : optActive p.query = some q)
    (hr : optActive p.regex = some pat)
    (hc : compile pat = some test)
    (ht : p.tags = []) :
    processSingleFile compile f p = none ↔
      ((queryStep p (baseName f.path) (extractTitleFromContent f.content)
          f.content).1 = []
        ∧ test f.content = false ∧ test (baseName f.path) = false) := by
  rw [processSingleFile_eq_none_iff]
  simp only [tagStep, ht, List.isEmpty_nil, Bool.not_true, Bool.false_eq_true,
    if_false]
  simp only [regexStep, hr, hc, hq, Option.isNone_some, Bool.false_eq_true,
    if_false]
  by_cases h1 : test f.content = true
  · simp [h1, queryStep, hq]
  · simp only [Bool.not_eq_true] at h1
    by_cases h2 : test (baseName f.path) = true
    · simp [h1, h2, queryStep, hq]
    · simp only [Bool.not_eq_true] at h2
      simp only [h1, h2, Bool.false_eq_true, if_false]
      simp only [queryStep, hq]
      constructor
      · intro hmf
        refine ⟨?_, by trivial, by trivial⟩
        simpa [List.isEmpty_iff] using hmf
      · rintro ⟨hmf, -, -⟩
        simpa [List.isEmpty_iff] using hmf

/-- C1 witness: a query that matches the content while the regex matches
nothing; the note is not excluded. -/
theorem C1_query_regex_exclusion_witness :
    processSingleFile
        (fun s => if s = "z".data then some (fun _ => false) else none)
        { path := "n.md".data, content := "hello".data, mtime := 0 }
        { query := some "hell".data, tags := [], tagOperator := none,
          searchIn := none, regex := some "z".data, includeContent := false,
          limit := none, offset := none } = none ↔
      ((queryStep
          { query := some "hell".data, tags := [], tagOperator := none,
            searchIn := none, regex := some "z".data, includeContent := false,
            limit := none, offset := none }
          (baseName "n.md".data)
          (extractTitleFromContent "hello".data) "hello".data).1 = []
        ∧ (fun (_ : JSStr) => false) "hello".data = false
        ∧ (fun (_ : JSStr) => false) (baseName "n.md".data) = false) :=
  C1_query_regex_exclusion
    (fun s => if s = "z".data then some (fun _ => false) else none)
    { path := "n.md".data, content := "hello".data, mtime := 0 }
    { query := some "hell".data, tags := [], tagOperator := none,
      searchIn := none, regex := some "z".data, includeContent := false,
      limit := none, offset := none }
    "hell".data "z".data (fun _ => false) (by decide) (by decide) rfl rfl

/-- C4: with a non-empty tags criterion, failure of the tag condition
excludes the note regardless of prior query/regex matches; success adds
`tags` to the matched fields of any returned note; and with no query and no
regex, success alone includes the note. -/
theorem C4_tag_filter (compile : JSStr → Option (JSStr → Bool)) (f : VFile)
    (p : SearchParams) (h : p.tags ≠ []) :
    (tagCondition p (extractTagsFromContent f.content) = false →
      processSingleFile compile f p = none)
    ∧ (∀ r : EnrichedResult, processSingleFile compile f p = some r →
        MField.tags ∈ r.matchedFields)
    ∧ (p.query = none → p.regex = none →
        tagCondition p (extractTagsFromContent f.content) = true →
        processSingleFile compile f p ≠ none) := by
  have hE : p.tags.isEmpty = false := by
    simpa [List.isEmpty_iff] using h
  refine ⟨?_, ?_, ?_⟩
  · intro hcond
    rw [processSingleFile_eq_none_iff]
    simp [tagStep, hE, hcond]
  · intro r hr
    have hmf := processSingleFile_matchedFields compile f p r hr
    by_cases hcond : tagCondition p (extractTagsFromContent f.content) = true
    · rw [hmf]
      simp [tagStep, hE, hcond]
    · exfalso
      have hnone : processSingleFile compile f p = none := by
        rw [processSingleFile_eq_none_iff]
        simp [tagStep, hE, hcond]
      rw [hnone] at hr
      cases hr
  · intro hq hr hcond
    rw [ne_eq, processSingleFile_eq_none_iff]
    simp [tagStep, hE, hcond, regexStep, queryStep, hq, hr, optActive]

/-- C4 witness: `tagOperator=AND` over required tags `{a, b}` excludes a
note possessing only tag `a`. -/
theorem C4_tag_filter_witness :
    processSingleFile (fun _ => none)
      { path := "n.md".data, content := "#a".data, mtime := 0 }
      { query := none, tags := ["a".data, "b".data],
        tagOperator := some TagOperator.AND, searchIn := none, regex := none,
        includeContent := false, limit := none, offset := none } = none :=
  (C4_tag_filter (fun _ => none)
    { path := "n.md".data, content := "#a".data, mtime := 0 }
    { query := none, tags := ["a".data, "b".data],
      tagOperator := some TagOperator.AND, searchIn := none, regex := none,
      includeContent := false, limit := none, offset := none }
    (by decide)).1 (by decide)

/-- C5: offset/limit are applied as one slice over the whole matched
sequence in listing order: when exactly 25 notes match, `limit=10`,
`offset=20` returns exactly the last 5 matched notes. -/
theorem C5_pagination (compile : JSStr → Option (JSStr → Bool))
    (files : List VFile) (p : SearchParams)
    (hn : (files.filterMap (fun f => processSingleFile compile f p)).length = 25)
    (hl : p.limit = some 10) (ho : p.offset = some 20) :
    searchNotes compile files p
        = (files.filterMap (fun f => processSingleFile compile f p)).drop 20
    ∧ (searchNotes compile files p).length = 5 := by
  have h5 : ((files.filterMap (fun f => processSingleFile compile f p)).drop 20).length
      = 5 := by
    rw [List.length_drop, hn]
  have hmain : searchNotes compile files p
      = (files.filterMap (fun f => processSingleFile compile f p)).drop 20 := by
    unfold searchNotes
    rw [batchedFilterMap_eq, hl, ho]
    simp only [jsOrNat]
    norm_num
    omega
  exact ⟨hmain, by rw [hmain, h5]⟩

/-- C5 witness: 25 trivially matching notes, `limit=10`, `offset=20`. -/
theorem C5_pagination_witness :
    searchNotes (fun _ => none)
        (List.replicate 25 { path := "n.md".data, content := "x".data, mtime := 0 })
        { query := none, tags := [], tagOperator := none, searchIn := none,
          regex := none, includeContent := false, limit := some 10,
          offset := some 20 }
      = ((List.replicate 25
            { path := "n.md".data, content := "x".data, mtime := (0 : Int) }).filterMap
          (fun f => processSingleFile (fun _ => none) f
            { query := none, tags := [], tagOperator := none, searchIn := none,
              regex := none, includeContent := false, limit := some 10,
              offset := some 20 })).drop 20
    ∧ (searchNotes (fun _ => none)
        (List.replicate 25 { path := "n.md".data, content := "x".data, mtime := 0 })
        { query := none, tags := [], tagOperator := none, searchIn := none,
          regex := none, includeContent := false, limit := some 10,
          offset := some 20 }).length = 5 :=
  C5_pagination (fun _ => none)
    (List.replicate 25 { path := "n.md".data, content := "x".data, mtime := 0 })
    { query := none, tags := [], tagOperator := none, searchIn := none,
      regex := none, includeContent := false, limit := some 10,
      offset := some 20 }
    (by decide) rfl rfl

/-- C6: the `size` sort key of `listNotes` compares the 200-character
excerpt lengths, so two notes whose contents agree on the first 200
characters (differing only later) compare equal under either sort order. -/
theorem C6_size_compares_excerpt (a b : VFile) (ic : Bool) (so : SortOrder)
    (h200 : a.content.take 200 = b.content.take 200)
    (_hne : a.content ≠ b.content) :
    listCompare SortBy.size so (mkListNote ic a) (mkListNote ic b) = 0 := by
  have hlen : (a.content.take 200).length = (b.content.take 200).length := by
    rw [h200]
  unfold listCompare mkListNote
  cases so <;> simp [hlen]

set_option maxRecDepth 4000 in
/-- C6 witness: two 201-character contents that agree on the first 200
characters compare equal under descending size sort. -/
theorem C6_size_compares_excerpt_witness :
    listCompare SortBy.size SortOrder.desc
      (mkListNote false
        { path := "a.md".data, content := List.replicate 200 'a' ++ ['x'],
          mtime := 0 })
      (mkListNote false
        { path := "b.md".data, content := List.replicate 200 'a' ++ ['y'],
          mtime := 0 }) = 0 :=
  C6_size_compares_excerpt
    { path := "a.md".data, content := List.replicate 200 'a' ++ ['x'], mtime := 0 }
    { path := "b.md".data, content := List.replicate 200 'a' ++ ['y'], mtime := 0 }
    false SortOrder.desc (by decide) (by decide)

/-- C7: a regex pattern that fails to compile is skipped: the result for
the note is exactly the result with no regex criterion at all, so the note
is neither excluded by the regex nor is the operation aborted, and the
query/tag filters apply unchanged. -/
theorem C7_invalid_regex_skipped (compile : JSStr → Option (JSStr → Bool))
    (f : VFile) (p : SearchParams) (pat : JSStr)
    (hr : p.regex = some pat) (hc : compile pat = none) :
    processSingleFile compile f p
      = processSingleFile compile f { p with regex := none } := by
  simp only [processSingleFile]
  have hre : regexStep compile p (baseName f.path) f.content
      (queryStep p (baseName f.path) (extractTitleFromContent f.content)
        f.content)
      = queryStep p (baseName f.path) (extractTitleFromContent f.content)
        f.content := by
    unfold regexStep
    rw [hr]
    unfold optActive
    by_cases hp : pat.isEmpty = true
    · simp [hp]
    · simp [hp, hc]
  rw [hre]
  rfl

/-- C7 witness: an uncompilable pattern `(` leaves a matching note in the
result set. -/
theorem C7_invalid_regex_skipped_witness :
    processSingleFile (fun _ => none)
        { path := "n.md".data, content := "x".data, mtime := 0 }
        { query := none, tags := [], tagOperator := none, searchIn := none,
          regex := some "(".data, includeContent := false, limit := none,
          offset := none }
      = processSingleFile (fun _ => none)
        { path := "n.md".data, content := "x".data, mtime := 0 }
        { query := none, tags := [], tagOperator := none, searchIn := none,
          regex := none, includeContent := false, limit := none,
          offset := none } :=
  C7_invalid_regex_skipped (fun _ => none)
    { path := "n.md".data, content := "x".data, mtime := 0 }
    { query := none, tags := [], tagOperator := none, searchIn := none,
      regex := some "(".data, includeContent := false, limit := none,
      offset := none }
    "(".data rfl rfl

/-- C9: a limit of exactly 0 is treated as unspecified: `searchNotes`
falls back to the 10-result default and `listNotes` to the 50-note
default; an empty page cannot be requested via `limit=0`. -/
theorem C9_limit_zero (compile : JSStr → Option (JSStr → Bool))
    (files : List VFile) (p : SearchParams) (lp : ListParams)
    (hp : p.limit = some 0) (hl : lp.limit = some 0) :
    searchNotes compile files p = searchNotes compile files { p with limit := none }
    ∧ (searchNotes compile files p).length ≤ 10
    ∧ listNotes files lp = listNotes files { lp with limit := none }
    ∧ (listNotes files lp).notes.length ≤ 50 := by
  refine ⟨?_, ?_, ?_, ?_⟩
  · unfold searchNotes
    rw [hp]
    rfl
  · unfold searchNotes
    rw [hp]
    exact List.length_take_le 10 _
  · unfold listNotes
    rw [hl]
    rfl
  · unfold listNotes
    rw [hl]
    exact List.length_take_le 50 _

/-- C9 witness: the theorem applied to a one-note vault. -/
theorem C9_limit_zero_witness :
    searchNotes (fun _ => none)
        [{ path := "n.md".data, content := "x".data, mtime := 0 }]
        { query := none, tags := [], tagOperator := none, searchIn := none,
          regex := none, includeContent := false, limit := some 0,
          offset := none }
      = searchNotes (fun _ => none)
        [{ path := "n.md".data, content := "x".data, mtime := 0 }]
        { query := none, tags := [], tagOperator := none, searchIn := none,
          regex := none, includeContent := false, limit := none,
          offset := none }
    ∧ (searchNotes (fun _ => none)
        [{ path := "n.md".data, content := "x".data, mtime := 0 }]
        { query := none, tags := [], tagOperator := none, searchIn := none,
          regex := none, includeContent := false, limit := some 0,
          offset := none }).length ≤ 10
    ∧ listNotes [{ path := "n.md".data, content := "x".data, mtime := 0 }]
        { limit := some 0, offset := none, sortBy := none, sortOrder := none,
          includeContent := false }
      = listNotes [{ path := "n.md".data, content := "x".data, mtime := 0 }]
        { limit := none, offset := none, sortBy := none, sortOrder := none,
          includeContent := false }
    ∧ (listNotes [{ path := "n.md".data, content := "x".data, mtime := 0 }]
        { limit := some 0, offset := none, sortBy := none, sortOrder := none,
          includeContent := false }).notes.length ≤ 50 :=
  C9_limit_zero (fun _ => none)
    [{ path := "n.md".data, content := "x".data, mtime := 0 }]
    { query := none, tags := [], tagOperator := none, searchIn := none,
      regex := none, includeContent := false, limit := some 0, offset := none }
    { limit := some 0, offset := none, sortBy := none, sortOrder := none,
      includeContent := false }
    rfl rfl

set_option maxRecDepth 8000 in
/-- C8 counterexample: with a topic whose sanitized form reaches the
100-character cap (here 100 `a`s), the regenerated collision-avoidance
filename truncates the appended timestamp away entirely, so the returned
path equals the pre-existing path: it is neither distinct nor does it
contain the timestamp. -/
theorem C8_counterexample :
    (fun q => q == joinPath "v".data (joinPath "MCP Notes".data
        (generateFileName "2024-01-01".data (List.replicate 100 'a'))))
      (joinPath "v".data (joinPath "MCP Notes".data
        (generateFileName "2024-01-01".data (List.replicate 100 'a')))) = true
    ∧ (createConversationNote true
        (fun q => q == joinPath "v".data (joinPath "MCP Notes".data
          (generateFileName "2024-01-01".data (List.replicate 100 'a'))))
        "v".data "2024-01-01".data "2024-01-01T00-00-00-000Z".data
        { year := 2024, month := 1, day := 1 }
        { topic := List.replicate 100 'a', highlights := [], tags := [],
          folder := none, style := none }).1.path
      = some (joinPath "v".data (joinPath "MCP Notes".data
          (generateFileName "2024-01-01".data (List.replicate 100 'a')))) := by
  refine ⟨by decide, by decide⟩

/-- C8 (amended): on a path collision, `createConversationNote` appends the
timestamp to the topic, regenerates the filename with the same sanitization
(including the 100-character truncation), writes once to the regenerated
path (single-shot, no retry) and returns success with that path; the final
path is distinct from the pre-existing one and its filename contains the
timestamp whenever the sanitization/truncation preserves the appended
suffix — which fails for topics whose sanitized form reaches the
100-character cap (see the counterexample). -/
theorem C8_collision_fallback (existsF : JSStr → Bool)
    (vaultPath dateStr ts : JSStr) (fmDate : DateYMD)
    (params : ConversationNoteParams)
    (hex : existsF (joinPath vaultPath (joinPath (resolvedFolder params)
        (generateFileName dateStr params.topic))) = true)
    (hsan : sanitizeFileName (params.topic ++ " - ".data ++ ts)
        = sanitizeFileName params.topic ++ " - ".data ++ ts)
    (hts : ts ≠ []) :
    (createConversationNote true existsF vaultPath dateStr ts fmDate params).1.success
        = true
    ∧ (createConversationNote true existsF vaultPath dateStr ts fmDate params).1.path
        = some (joinPath vaultPath (joinPath (resolvedFolder params)
            (generateFileName dateStr (params.topic ++ " - ".data ++ ts))))
    ∧ generateFileName dateStr (params.topic ++ " - ".data ++ ts)
        = dateStr ++ " - ".data ++ sanitizeFileName params.topic
            ++ " - ".data ++ ts ++ ".md".data
    ∧ (createConversationNote true existsF vaultPath dateStr ts fmDate params).1.path
        ≠ some (joinPath vaultPath (joinPath (resolvedFolder params)
            (generateFileName dateStr params.topic)))
    ∧ (createConversationNote true existsF vaultPath dateStr ts fmDate params).2
        = [(joinPath vaultPath (joinPath (resolvedFolder params)
              (generateFileName dateStr (params.topic ++ " - ".data ++ ts))),
            formatConversationNote params fmDate)] := by
  have hgen : generateFileName dateStr (params.topic ++ " - ".data ++ ts)
      = dateStr ++ " - ".data ++ sanitizeFileName params.topic
          ++ " - ".data ++ ts ++ ".md".data := by
    unfold generateFileName
    rw [hsan]
    simp [List.append_assoc]
  have hred : createConversationNote true existsF vaultPath dateStr ts fmDate params
      = ({ success := true,
           path := some (joinPath vaultPath (joinPath (resolvedFolder params)
             (generateFileName dateStr (params.topic ++ " - ".data ++ ts)))),
           error := none },
         [(joinPath vaultPath (joinPath (resolvedFolder params)
             (generateFileName dateStr (params.topic ++ " - ".data ++ ts))),
           formatConversationNote params fmDate)]) := by
    simp only [createConversationNote, Bool.not_true, Bool.false_eq_true,
      if_false, hex, if_true]
  refine ⟨by rw [hred], by rw [hred], hgen, ?_, by rw [hred]⟩
  rw [hred]
  simp only [ne_eq, Option.some.injEq]
  intro h
  have hint := congrArg List.length h
  have hts1 : ts.length ≠ 0 := by
    intro h0
    exact hts (List.eq_nil_of_length_eq_zero h0)
  simp only [joinPath, generateFileName, hsan, List.length_append] at hint
  omega

set_option maxRecDepth 8000 in
/-- C8 witness: a short topic where the timestamp survives sanitization;
the fallback path is distinct and carries the timestamp. -/
theorem C8_collision_fallback_witness :
    (createConversationNote true
        (fun q => q == joinPath "v".data (joinPath "MCP Notes".data
          (generateFileName "2024-01-01".data "Hi".data)))
        "v".data "2024-01-01".data "2024-01-01T00-00-00-000Z".data
        { year := 2024, month := 1, day := 1 }
        { topic := "Hi".data, highlights := [], tags := [], folder := none,
          style := none }).1.success = true
    ∧ (createConversationNote true
        (fun q => q == joinPath "v".data (joinPath "MCP Notes".data
          (generateFileName "2024-01-01".data "Hi".data)))
        "v".data "2024-01-01".data "2024-01-01T00-00-00-000Z".data
        { year := 2024, month := 1, day := 1 }
        { topic := "Hi".data, highlights := [], tags := [], folder := none,
          style := none }).1.path
      = some (joinPath "v".data (joinPath
          (resolvedFolder
            { topic := "Hi".data, highlights := [], tags := [], folder := none,
              style := none })
          (generateFileName "2024-01-01".data
            ("Hi".data ++ " - ".data ++ "2024-01-01T00-00-00-000Z".data))))
    ∧ generateFileName "2024-01-01".data
          ("Hi".data ++ " - ".data ++ "2024-01-01T00-00-00-000Z".data)
      = "2024-01-01".data ++ " - ".data ++ sanitizeFileName "Hi".data
          ++ " - ".data ++ "2024-01-01T00-00-00-000Z".data ++ ".md".data
    ∧ (createConversationNote true
        (fun q => q == joinPath "v".data (joinPath "MCP Notes".data
          (generateFileName "2024-01-01".data "Hi".data)))
        "v".data "2024-01-01".data "2024-01-01T00-00-00-000Z".data
        { year := 2024, month := 1, day := 1 }
        { topic := "Hi".data, highlights := [], tags := [], folder := none,
          style := none }).1.path
      ≠ some (joinPath "v".data (joinPath
          (resolvedFolder
            { topic := "Hi".data, highlights := [], tags := [], folder := none,
              style := none })
          (generateFileName "2024-01-01".data "Hi".data)))
    ∧ (createConversationNote true
        (fun q => q == joinPath "v".data (joinPath "MCP Notes".data
          (generateFileName "2024-01-01".data "Hi".data)))
        "v".data "2024-01-01".data "2024-01-01T00-00-00-000Z".data
        { year := 2024, month := 1, day := 1 }
        { topic := "Hi".data, highlights := [], tags := [], folder := none,
          style := none }).2
      = [(joinPath "v".data (joinPath
            (resolvedFolder
              { topic := "Hi".data, highlights := [], tags := [], folder := none,
                style := none })
            (generateFileName "2024-01-01".data
              ("Hi".data ++ " - ".data ++ "2024-01-01T00-00-00-000Z".data))),
          formatConversationNote
            { topic := "Hi".data, highlights := [], tags := [], folder := none,
              style := none }
            { year := 2024, month := 1, day := 1 })] :=
  C8_collision_fallback
    (fun q => q == joinPath "v".data (joinPath "MCP Notes".data
      (generateFileName "2024-01-01".data "Hi".data)))
    "v".data "2024-01-01".data "2024-01-01T00-00-00-000Z".data
    { year := 2024, month := 1, day := 1 }
    { topic := "Hi".data, highlights := [], tags := [], folder := none,
      style := none }
    (by decide) (by decide) (by decide)

theorem natDigitsAux_mem {c : Char} :
    ∀ (fuel n : Nat) (acc : List Char), c ∈ natDigitsAux fuel n acc →
      c ∈ acc ∨ ∃ k, k < 10 ∧ c = Nat.digitChar k := by
  intro fuel
  induction fuel with
  | zero => intro n acc h; exact Or.inl h
  | succ fuel ih =>
    intro n acc h
    rw [natDigitsAux] at h
    by_cases hn : n = 0
    · rw [if_pos hn] at h; exact Or.inl h
    · rw [if_neg hn] at h
      rcases ih (n / 10) (Nat.digitChar (n % 10) :: acc) h with hacc | hk
      · rcases List.mem_cons.mp hacc with hc | hc
        · exact Or.inr ⟨n % 10, Nat.mod_lt n (by omega), hc⟩
        · exact Or.inl hc
      · exact Or.inr hk

theorem digitChar_ne_nl {k : Nat} (h : k < 10) : Nat.digitChar k ≠ '\n' := by
  interval_cases k <;> decide

theorem natDigits_no_nl (n : Nat) : ('\n' : Char) ∉ natDigits n := by
  intro hmem
  unfold natDigits at hmem
  by_cases hn : n = 0
  · rw [if_pos hn] at hmem
    exact absurd hmem (by decide)
  · rw [if_neg hn] at hmem
    rcases natDigitsAux_mem n n [] hmem with h | ⟨k, hk, hc⟩
    · cases h
    · exact digitChar_ne_nl hk hc.symm

theorem padZeros_no_nl {w : Nat} {s : JSStr} (h : ('\n' : Char) ∉ s) :
    ('\n' : Char) ∉ padZeros w s := by
  intro hmem
  unfold padZeros at hmem
  rcases List.mem_append.mp hmem with h1 | h2
  · have := List.eq_of_mem_replicate h1
    cases this
  · exact h h2

theorem formatYMD_no_nl (d : DateYMD) : ('\n' : Char) ∉ formatYMD d := by
  intro hmem
  unfold formatYMD at hmem
  rcases List.mem_append.mp hmem with h | h
  · rcases List.mem_append.mp h with h | h
    · rcases List.mem_append.mp h with h | h
      · rcases List.mem_append.mp h with h | h
        · exact padZeros_no_nl (natDigits_no_nl d.year) h
        · simp at h
      · exact padZeros_no_nl (natDigits_no_nl d.month) h
    · simp at h
  · exact padZeros_no_nl (natDigits_no_nl d.day) h

theorem quoteStr_no_nl {s : JSStr} (h : ('\n' : Char) ∉ s) :
    ('\n' : Char) ∉ quoteStr s := by
  intro hmem
  unfold quoteStr at hmem
  rcases List.mem_append.mp hmem with h1 | h2
  · rcases List.mem_append.mp h1 with h1 | h1
    · simp at h1
    · exact h h1
  · simp at h2

theorem styleStr_no_nl (st : NoteStyle) : ('\n' : Char) ∉ styleStr st := by
  cases st <;> decide

theorem joinStrs_no_nl {sep : JSStr} (hsep : ('\n' : Char) ∉ sep) :
    ∀ {l : List JSStr}, (∀ x ∈ l, ('\n' : Char) ∉ x) →
      ('\n' : Char) ∉ joinStrs sep l := by
  intro l
  induction l with
  | nil => intro _ h; cases h
  | cons x xs ih =>
    intro hall hmem
    cases xs with
    | nil => exact hall x (List.mem_cons_self x []) hmem
    | cons y ys =>
      rw [joinStrs] at hmem
      rcases List.mem_append.mp hmem with h1 | h2
      · rcases List.mem_append.mp h1 with h1 | h1
        · exact hall x (List.mem_cons_self x _) h1
        · exact hsep h1
      · exact ih (fun z hz => hall z (List.mem_cons_of_mem x hz)) h2

theorem generateMainContent_decomp (topic : JSStr) (highlights : List JSStr)
    (style : NoteStyle) :
    ∃ rest : JSStr, generateMainContent topic highlights style
      = ("# ".data ++ topic) ++ '\n' :: '\n' :: rest := by
  cases style with
  | concise =>
    refine ⟨(highlights.map (fun p => "- ".data ++ p ++ "\n".data)).flatten, ?_⟩
    simp only [generateMainContent, generateConciseContent, List.append_assoc]
    rfl
  | detailed =>
    refine ⟨(highlights.map (fun p => p ++ "\n\n".data)).flatten, ?_⟩
    simp only [generateMainContent, generateDetailedContent, List.append_assoc]
    rfl
  | eli5 =>
    refine ⟨"> Simple explanation\n\n".data
      ++ (highlights.map (fun p => p ++ "\n\n".data)).flatten, ?_⟩
    simp only [generateMainContent, generateEli5Content, List.append_assoc]
    rfl

theorem splitLines_cons_nl (x : JSStr) :
    splitLines ('\n' :: x) = [] :: splitLines x := rfl

/-- C10: formatting a conversation note and extracting the title
round-trips the topic (trimmed), for any single-line topic with non-empty
trimmed form, newline-free tags, and any style and date. -/
theorem C10_format_title_round_trip (params : ConversationNoteParams)
    (date : DateYMD)
    (hnl : ('\n' : Char) ∉ params.topic)
    (htrim : trimChars params.topic ≠ [])
    (htags : ∀ t ∈ params.tags, ('\n' : Char) ∉ t) :
    extractTitleFromContent (formatConversationNote params date)
      = trimChars params.topic := by
  obtain ⟨rest, hmain⟩ := generateMainContent_decomp params.topic
    params.highlights (params.style.getD NoteStyle.concise)
  have hform : formatConversationNote params date
      = "---".data ++ '\n'
        :: (("created: ".data ++ quoteStr (formatYMD date)) ++ '\n'
        :: (("style: ".data
              ++ quoteStr (styleStr (params.style.getD NoteStyle.concise))) ++ '\n'
        :: (("tags: [".data
              ++ joinStrs ", ".data ((params.tags ++ ["mcp".data]).map quoteStr)
              ++ "]".data) ++ '\n'
        :: ("---".data ++ '\n'
        :: ('\n'
        :: (("# ".data ++ params.topic) ++ '\n'
        :: ('\n' :: rest))))))) := by
    simp only [formatConversationNote, generateFrontMatter, hmain,
      List.append_assoc, List.cons_append, List.nil_append]
  have hclnl : ('\n' : Char) ∉ "created: ".data ++ quoteStr (formatYMD date) := by
    intro hmem
    rcases List.mem_append.mp hmem with h | h
    · simp at h
    · exact quoteStr_no_nl (formatYMD_no_nl date) h
  have hslnl : ('\n' : Char)
      ∉ "style: ".data ++ quoteStr (styleStr (params.style.getD NoteStyle.concise)) := by
    intro hmem
    rcases List.mem_append.mp hmem with h | h
    · simp at h
    · exact quoteStr_no_nl (styleStr_no_nl _) h
  have htlnl : ('\n' : Char)
      ∉ "tags: [".data
          ++ joinStrs ", ".data ((params.tags ++ ["mcp".data]).map quoteStr)
          ++ "]".data := by
    intro hmem
    rcases List.mem_append.mp hmem with h | h
    · rcases List.mem_append.mp h with h | h
      · simp at h
      · refine joinStrs_no_nl (by decide) ?_ h
        intro x hx
        rcases List.mem_map.mp hx with ⟨y, hy, rfl⟩
        rcases List.mem_append.mp hy with hy | hy
        · exact quoteStr_no_nl (htags y hy)
        · have : y = "mcp".data := by simpa using hy
          subst this
          exact quoteStr_no_nl (by decide)
    · simp at h
  have hdash : ('\n' : Char) ∉ "---".data := by decide
  have htitle : ('\n' : Char) ∉ "# ".data ++ params.topic := by
    intro hmem
    rcases List.mem_append.mp hmem with h | h
    · simp at h
    · exact hnl h
  unfold extractTitleFromContent
  rw [hform, splitLines_append_cons _ _ hdash,
    splitLines_append_cons _ _ hclnl, splitLines_append_cons _ _ hslnl,
    splitLines_append_cons _ _ htlnl, splitLines_append_cons _ _ hdash,
    splitLines_cons_nl, splitLines_append_cons _ _ htitle]
  have hex : ∃ c ∈ params.topic, jsWS c = false :=
    exists_not_ws_of_trim_ne htrim
  have s1 : isPre "# ".data (trimChars "---".data) = false := by decide
  have s2 : isPre "# ".data
      (trimChars ("created: ".data ++ quoteStr (formatYMD date))) = false :=
    findTitle_skip_head _ (by decide) (by decide)
  have s3 : isPre "# ".data
      (trimChars ("style: ".data
        ++ quoteStr (styleStr (params.style.getD NoteStyle.concise)))) = false :=
    findTitle_skip_head _ (by decide) (by decide)
  have s4 : isPre "# ".data
      (trimChars ("tags: [".data
        ++ joinStrs ", ".data ((params.tags ++ ["mcp".data]).map quoteStr)
        ++ "]".data)) = false :=
    findTitle_skip_head _ (by decide) (by decide)
  have s6 : isPre "# ".data (trimChars ([] : JSStr)) = false := by decide
  have t1 : trimChars ("# ".data ++ params.topic)
      = '#' :: ' ' :: trimRight params.topic := by
    show trimChars ('#' :: (' ' :: params.topic)) = _
    rw [trimChars_cons_not_ws _ (by decide), trimRight_cons_keep ' ' hex]
  have t2 : isPre "# ".data ('#' :: ' ' :: trimRight params.topic) = true := by
    simp [isPre]
  simp only [findTitle, s1, s2, s3, s4, s6, t1, t2, Bool.false_eq_true,
    if_false, if_true, List.drop_succ_cons, List.drop_zero]
  exact trimChars_trimRight _

/-- C10 witness: a concrete round trip through formatting. -/
theorem C10_format_title_round_trip_witness :
    extractTitleFromContent
        (formatConversationNote
          { topic := "Lean proofs".data, highlights := ["point".data],
            tags := ["x".data], folder := none, style := none }
          { year := 2024, month := 1, day := 1 })
      = trimChars "Lean proofs".data :=
  C10_format_title_round_trip
    { topic := "Lean proofs".data, highlights := ["point".data],
      tags := ["x".data], folder := none, style := none }
    { year := 2024, month := 1, day := 1 }
    (by decide) (by decide) (by decide)

end ObsidianMCP
